import Mathlib

/-!
# Verification of the siphon queue engine

Shallow embedding of `siphon/queue.py` and `siphon/queue_manager.py`.

The backing Redis store is modelled as two finite maps: one from list keys
to ordered lists of strings (the per-queue FIFO lists manipulated by
`rpush` / `lpop` / `lrange`) and one from hash keys to association lists of
field/value pairs (the per-job field maps manipulated by `hset` /
`hgetall` / `delete`).  Python dictionaries are modelled as association
lists whose key column is duplicate-free.
-/

namespace Siphon

/-- Association-list lookup: the value stored under key `k`, if any
(models Python `d[k]` / Redis `HGET`). -/
def lookupS {α : Type} : List (String × α) → String → Option α
  | [], _ => none
  | (a, b) :: rest, k => if a = k then some b else lookupS rest k

/-- Association-list update: set key `k` to `v`, overwriting an existing
binding in place or appending a fresh one (models Python `d[k] = v` and a
single Redis `HSET` on one hash). -/
def assocSet {α : Type} : List (String × α) → String → α → List (String × α)
  | [], k, v => [(k, v)]
  | (a, b) :: rest, k, v =>
    if a = k then (a, v) :: rest else (a, b) :: assocSet rest k v

/-- The Redis backing store visible to the core: ordered lists keyed by
list name, and hashes (field maps) keyed by job key. -/
structure Store where
  lists : String → List String
  hashes : String → List (String × String)

/-- `RPUSH key value`: append to the tail of the list at `key`. -/
def Store.rpush (s : Store) (key value : String) : Store :=
  { s with lists := fun n => if n = key then s.lists key ++ [value] else s.lists n }

/-- `LPOP key`: remove and return the head of the list at `key`;
`none` when the list is empty. -/
def Store.lpop (s : Store) (key : String) : Option String × Store :=
  match s.lists key with
  | [] => (none, s)
  | x :: xs =>
    (some x, { s with lists := fun n => if n = key then xs else s.lists n })

/-- `LRANGE key -1 -1`: the last element of the list at `key` as a
singleton list, or the empty list. -/
def Store.lrangeLast (s : Store) (key : String) : List String :=
  match (s.lists key).getLast? with
  | some x => [x]
  | none => []

/-- `HSET key field value`: set one field of the hash at `key`. -/
def Store.hset (s : Store) (key field value : String) : Store :=
  { s with hashes := fun n =>
      if n = key then assocSet (s.hashes key) field value else s.hashes n }

/-- `HGETALL key`: all field/value pairs of the hash at `key`
(the empty list when the hash does not exist). -/
def Store.hgetall (s : Store) (key : String) : List (String × String) :=
  s.hashes key

/-- `DEL key`: remove the hash stored at `key`. -/
def Store.del (s : Store) (key : String) : Store :=
  { s with hashes := fun n => if n = key then [] else s.hashes n }

/-- A live connection to the backing store (`redis_connection.create_connection`
always yields one; its parameters are irrelevant to the core). -/
inductive Conn
  | live

/-- A Python value as returned by `Queue._peek_last_element`, which can be a
string (`item[0]`), a raw list (the `return item` fallthrough), or `None`. -/
inductive PyVal
  | str (s : String)
  | list (l : List String)
  | none
deriving DecidableEq

/-- `siphon.queue.Queue`: holds the store connection and the namespaced
list name `'{}:{}'.format('queue', name)`. -/
structure Queue where
  database : Conn
  name : String

/-- `Queue.__init__`: raises `Exception('No connection given. Exiting')`
when `connection is None`, otherwise stores the connection and the
derived name `"queue:" ++ name`. -/
def Queue.init (name : String) (connection : Option Conn) : Except String Queue :=
  match connection with
  | Option.none => Except.error "No connection given. Exiting"
  | Option.some c => Except.ok ⟨c, "queue" ++ ":" ++ name⟩

/-- `Queue._pop`: `self.database.lpop(self.name)`. -/
def Queue.pop (q : Queue) (s : Store) : Option String × Store :=
  s.lpop q.name

/-- `Queue._push_to_queue`: `self.database.rpush(self.name, key)`. -/
def Queue.pushToQueue (q : Queue) (s : Store) (key : String) : Store :=
  s.rpush q.name key

/-- `Queue._set_hash_data`: `for k, v in data.items(): self.database.hset(key, k, v)`. -/
def Queue.setHashData (q : Queue) (s : Store) (key : String)
    (data : List (String × String)) : Store :=
  data.foldl (fun st kv => st.hset key kv.1 kv.2) s

/-- `Queue._get_hash_data`: `hgetall`, then `None` when the result has no
items, else the dictionary. -/
def Queue.getHashData (q : Queue) (s : Store) (key : String) :
    Option (List (String × String)) :=
  let data := s.hgetall key
  if data.length = 0 then Option.none else Option.some data

/-- `Queue._delete_hash_data`: `self.database.delete(key)`. -/
def Queue.deleteHashData (q : Queue) (s : Store) (key : String) : Store :=
  s.del key

/-- `Queue._peek_last_element`: `item = lrange(self.name, -1, -1)`; returns
`item[0]` when `item` is truthy and non-empty, otherwise returns `item`
itself (the empty list, not `None`). -/
def Queue.peekLastElement (q : Queue) (s : Store) : PyVal :=
  match s.lrangeLast q.name with
  | x :: _ => PyVal.str x
  | [] => PyVal.list []

/-- `Queue.enqueue`: `self._push_to_queue(key)` then
`self._set_hash_data(key, data)`. -/
def Queue.enqueue (q : Queue) (s : Store) (key : String)
    (data : List (String × String)) : Store :=
  q.setHashData (q.pushToQueue s key) key data

/-- Modelled from the spec: `QueueManager.dequeue` calls `Queue.dequeue`,
but `queue.py` defines no such method.  Per the spec (§4.1), dequeue
atomically removes the key at the head of the ordered list (store-level
pop); if a key was removed it reads back the key's full field map and
returns that mapping; when the list was already empty it returns the
`Empty` sentinel, an empty mapping, never an error. -/
def Queue.dequeue (q : Queue) (s : Store) : List (String × String) × Store :=
  match q.pop s with
  | (Option.none, s1) => ([], s1)
  | (Option.some k, s1) => (s1.hgetall k, s1)

/-- The error raised by `QueueManager` at the registry boundary:
`raise HTTPException('QueueNotFound')`.  `Queue` itself never produces a
`SiphonError` (its operations above return stores and values only). -/
inductive SiphonError
  | queueNotFound
deriving DecidableEq

/-- `siphon.queue_manager.QueueManager`: the registry, a mapping from queue
name to `Queue` instance plus the shared store connection. -/
structure QueueManager where
  connection : Conn
  queues : List (String × Queue)

/-- `QueueManager._get_queue`: `self.queues[queue_name]` when present,
else `None`. -/
def QueueManager.getQueue (m : QueueManager) (name : String) : Option Queue :=
  lookupS m.queues name

/-- `QueueManager.create_queue`:
`self.queues[queue_name] = Queue(queue_name, self.connection)`.  The
manager's connection is never `None` (`connection or create_connection()`),
so `Queue.init` succeeds; were it to raise, the mapping would be left
unchanged. -/
def QueueManager.createQueue (m : QueueManager) (name : String) : QueueManager :=
  match Queue.init name (Option.some m.connection) with
  | Except.ok q => { m with queues := assocSet m.queues name q }
  | Except.error _ => m

/-- `QueueManager.enqueue`: look up the queue, raise `QueueNotFound` when
absent, else delegate to `Queue.enqueue` and return `True`. -/
def QueueManager.enqueue (m : QueueManager) (s : Store) (name key : String)
    (data : List (String × String)) : Except SiphonError (Bool × Store) :=
  match m.getQueue name with
  | Option.none => Except.error SiphonError.queueNotFound
  | Option.some q => Except.ok (true, q.enqueue s key data)

/-- `QueueManager.dequeue`: look up the queue, raise `QueueNotFound` when
absent, else delegate to `Queue.dequeue`. -/
def QueueManager.dequeue (m : QueueManager) (s : Store) (name : String) :
    Except SiphonError (List (String × String) × Store) :=
  match m.getQueue name with
  | Option.none => Except.error SiphonError.queueNotFound
  | Option.some q => Except.ok (q.dequeue s)

/-- One registry-level operation, as issued by the transport layer. -/
inductive Op
  | create (name : String)
  | enq (name key : String) (data : List (String × String))
  | deq (name : String)

/-- One step of the registry state machine.  A raised `QueueNotFound`
propagates to the caller and leaves both the registry and the store
unchanged. -/
def step : QueueManager × Store → Op → QueueManager × Store
  | (m, s), Op.create n => (m.createQueue n, s)
  | (m, s), Op.enq n k d =>
    match m.enqueue s n k d with
    | Except.ok (_, s1) => (m, s1)
    | Except.error _ => (m, s)
  | (m, s), Op.deq n =>
    match m.dequeue s n with
    | Except.ok (_, s1) => (m, s1)
    | Except.error _ => (m, s)

/-- Run a sequence of registry operations. -/
def run (st : QueueManager × Store) (ops : List Op) : QueueManager × Store :=
  ops.foldl step st

/-- Enqueue a batch of jobs (key, fields) one after another on one queue. -/
def Queue.enqueueAll (q : Queue) (s : Store)
    (jobs : List (String × List (String × String))) : Store :=
  jobs.foldl (fun st j => q.enqueue st j.1 j.2) s

/-- Dequeue `n` times in a row, collecting the returned mappings in order. -/
def Queue.dequeueN (q : Queue) (s : Store) : Nat → List (List (String × String)) × Store
  | 0 => ([], s)
  | n + 1 =>
    let r1 := q.dequeue s
    let r2 := q.dequeueN r1.2 n
    (r1.1 :: r2.1, r2.2)

/-- A completely empty store (fresh Redis instance). -/
def emptyStore : Store :=
  ⟨fun _ => [], fun _ => []⟩

/-- The queue object produced by `Queue('foo', connection)`. -/
def qFoo : Queue :=
  ⟨Conn.live, "queue" ++ ":" ++ "foo"⟩

/-- A registry holding exactly the queue `"foo"` (after `create_queue('foo')`). -/
def mFoo : QueueManager :=
  ⟨Conn.live, [("foo", qFoo)]⟩

/-- A registry with no queues created yet. -/
def mEmpty : QueueManager :=
  ⟨Conn.live, []⟩

/-- A store whose `"queue:foo"` list holds the two keys `["a", "b"]`. -/
def storeAB : Store :=
  ⟨fun n => if n = "queue" ++ ":" ++ "foo" then ["a", "b"] else [], fun _ => []⟩

/-- Fold a list of field/value pairs into an association list, one
`assocSet` per pair (the cumulative effect of `_set_hash_data` on one hash). -/
def setAll (h : List (String × String)) (data : List (String × String)) :
    List (String × String) :=
  data.foldl (fun acc kv => assocSet acc kv.1 kv.2) h

/-! ## Helper lemmas -/

theorem lookupS_assocSet_self {α : Type} (l : List (String × α)) (k : String) (v : α) :
    lookupS (assocSet l k v) k = some v := by
  induction l with
  | nil => simp [assocSet, lookupS]
  | cons hd tl ih =>
    by_cases h : hd.1 = k
    · simp [assocSet, h, lookupS]
    · simpa [assocSet, h, lookupS] using ih

theorem lookupS_assocSet_ne {α : Type} (l : List (String × α)) (k n : String) (v : α)
    (h : n ≠ k) : lookupS (assocSet l k v) n = lookupS l n := by
  have hkn : ¬ k = n := fun hh => h hh.symm
  induction l with
  | nil => simp [assocSet, lookupS, hkn]
  | cons hd tl ih =>
    obtain ⟨a, b⟩ := hd
    by_cases h1 : a = k
    · subst h1
      simp [assocSet, lookupS, hkn]
    · simp [assocSet, h1, lookupS, ih]

theorem lookupS_isSome_assocSet {α : Type} (l : List (String × α)) (k n : String) (v : α)
    (h : (lookupS l n).isSome) : (lookupS (assocSet l k v) n).isSome := by
  by_cases h1 : n = k
  · rw [h1, lookupS_assocSet_self]; rfl
  · rwa [lookupS_assocSet_ne l k n v h1]

theorem setAll_cons_notin (rest : List (String × String)) :
    ∀ (h : List (String × String)) (f v : String), f ∉ rest.map Prod.fst →
      setAll ((f, v) :: h) rest = (f, v) :: setAll h rest := by
  induction rest with
  | nil => intro h f v _; rfl
  | cons kv tl ih =>
    intro h f v hf
    obtain ⟨g, w⟩ := kv
    rw [List.map_cons, List.mem_cons] at hf
    push_neg at hf
    have h1 : ¬ f = g := hf.1
    have h2 : f ∉ tl.map Prod.fst := hf.2
    have h3 : assocSet ((f, v) :: h) g w = (f, v) :: assocSet h g w := by
      simp [assocSet, h1]
    calc setAll ((f, v) :: h) ((g, w) :: tl)
        = setAll (assocSet ((f, v) :: h) g w) tl := rfl
      _ = setAll ((f, v) :: assocSet h g w) tl := by rw [h3]
      _ = (f, v) :: setAll (assocSet h g w) tl := ih _ f v h2
      _ = (f, v) :: setAll h ((g, w) :: tl) := rfl

theorem setAll_nil_of_nodup (data : List (String × String))
    (hnd : (data.map Prod.fst).Nodup) : setAll [] data = data := by
  induction data with
  | nil => rfl
  | cons kv tl ih =>
    rw [List.map_cons, List.nodup_cons] at hnd
    obtain ⟨g, w⟩ := kv
    calc setAll [] ((g, w) :: tl)
        = setAll [(g, w)] tl := rfl
      _ = (g, w) :: setAll [] tl := setAll_cons_notin tl [] g w hnd.1
      _ = (g, w) :: tl := by rw [ih hnd.2]

theorem pushToQueue_hashes (q : Queue) (s : Store) (key : String) :
    (q.pushToQueue s key).hashes = s.hashes := rfl

theorem pushToQueue_lists (q : Queue) (s : Store) (key n : String) :
    (q.pushToQueue s key).lists n =
      if n = q.name then s.lists q.name ++ [key] else s.lists n := rfl

theorem setHashData_lists (q : Queue) (key : String) :
    ∀ (data : List (String × String)) (s : Store),
      (q.setHashData s key data).lists = s.lists := by
  intro data
  induction data with
  | nil => intro s; rfl
  | cons kv tl ih =>
    intro s
    calc (q.setHashData s key (kv :: tl)).lists
        = (q.setHashData (s.hset key kv.1 kv.2) key tl).lists := rfl
      _ = (s.hset key kv.1 kv.2).lists := ih _
      _ = s.lists := rfl

theorem setHashData_hashes_self (q : Queue) (key : String) :
    ∀ (data : List (String × String)) (s : Store),
      (q.setHashData s key data).hashes key = setAll (s.hashes key) data := by
  intro data
  induction data with
  | nil => intro s; rfl
  | cons kv tl ih =>
    intro s
    calc (q.setHashData s key (kv :: tl)).hashes key
        = (q.setHashData (s.hset key kv.1 kv.2) key tl).hashes key := rfl
      _ = setAll ((s.hset key kv.1 kv.2).hashes key) tl := ih _
      _ = setAll (assocSet (s.hashes key) kv.1 kv.2) tl := by
          simp [Store.hset]
      _ = setAll (s.hashes key) (kv :: tl) := rfl

theorem setHashData_hashes_ne (q : Queue) (key n : String) (hn : n ≠ key) :
    ∀ (data : List (String × String)) (s : Store),
      (q.setHashData s key data).hashes n = s.hashes n := by
  intro data
  induction data with
  | nil => intro s; rfl
  | cons kv tl ih =>
    intro s
    calc (q.setHashData s key (kv :: tl)).hashes n
        = (q.setHashData (s.hset key kv.1 kv.2) key tl).hashes n := rfl
      _ = (s.hset key kv.1 kv.2).hashes n := ih _
      _ = s.hashes n := by simp [Store.hset, hn]

theorem enqueue_lists (q : Queue) (s : Store) (key n : String)
    (data : List (String × String)) :
    (q.enqueue s key data).lists n =
      if n = q.name then s.lists q.name ++ [key] else s.lists n := by
  calc (q.enqueue s key data).lists n
      = (q.pushToQueue s key).lists n := by
        rw [Queue.enqueue, setHashData_lists]
    _ = _ := pushToQueue_lists q s key n

theorem enqueue_hashes_self (q : Queue) (s : Store) (key : String)
    (data : List (String × String)) :
    (q.enqueue s key data).hashes key = setAll (s.hashes key) data := by
  rw [Queue.enqueue, setHashData_hashes_self]
  rfl

theorem enqueue_hashes_ne (q : Queue) (s : Store) (key n : String)
    (data : List (String × String)) (hn : n ≠ key) :
    (q.enqueue s key data).hashes n = s.hashes n := by
  rw [Queue.enqueue, setHashData_hashes_ne q key n hn]
  rfl

theorem lpop_of_nil (s : Store) (key : String) (h : s.lists key = []) :
    s.lpop key = (none, s) := by
  simp [Store.lpop, h]

theorem lpop_of_cons (s : Store) (key k : String) (rest : List String)
    (h : s.lists key = k :: rest) :
    s.lpop key =
      (some k, { s with lists := fun n => if n = key then rest else s.lists n }) := by
  simp [Store.lpop, h]

theorem dequeue_of_nil (q : Queue) (s : Store) (h : s.lists q.name = []) :
    q.dequeue s = ([], s) := by
  simp [Queue.dequeue, Queue.pop, lpop_of_nil s q.name h]

theorem dequeue_of_cons (q : Queue) (s : Store) (k : String) (rest : List String)
    (h : s.lists q.name = k :: rest) :
    q.dequeue s =
      (s.hashes k,
        { s with lists := fun n => if n = q.name then rest else s.lists n }) := by
  simp [Queue.dequeue, Queue.pop, lpop_of_cons s q.name k rest h, Store.hgetall]

theorem dequeueN_spec (q : Queue) :
    ∀ (jobs : List (String × List (String × String))) (s : Store),
      s.lists q.name = jobs.map Prod.fst →
      (∀ j ∈ jobs, s.hashes j.1 = j.2) →
      (q.dequeueN s jobs.length).1 = jobs.map Prod.snd := by
  intro jobs
  induction jobs with
  | nil =>
    intro s _ _
    rfl
  | cons j tl ih =>
    intro s hl hh
    obtain ⟨k, d⟩ := j
    rw [List.map_cons] at hl
    have h1 : q.dequeue s =
        (d, { s with lists := fun n => if n = q.name then tl.map Prod.fst else s.lists n }) := by
      rw [dequeue_of_cons q s k (tl.map Prod.fst) hl, hh (k, d) (List.mem_cons_self _ _)]
    have h2 : (q.dequeueN s ((k, d) :: tl).length).1 =
        d :: (q.dequeueN
          { s with lists := fun n => if n = q.name then tl.map Prod.fst else s.lists n }
          tl.length).1 := by
      simp [Queue.dequeueN, List.length_cons, h1]
    rw [h2, List.map_cons]
    congr 1
    exact ih _ (by simp) (fun j hj => hh j (List.mem_cons_of_mem _ hj))

theorem enqueueAll_lists (q : Queue) :
    ∀ (jobs : List (String × List (String × String))) (s : Store),
      (q.enqueueAll s jobs).lists q.name = s.lists q.name ++ jobs.map Prod.fst := by
  intro jobs
  induction jobs with
  | nil =>
    intro s
    simp [Queue.enqueueAll]
  | cons j tl ih =>
    intro s
    obtain ⟨k, d⟩ := j
    calc (q.enqueueAll s ((k, d) :: tl)).lists q.name
        = (q.enqueueAll (q.enqueue s k d) tl).lists q.name := rfl
      _ = (q.enqueue s k d).lists q.name ++ tl.map Prod.fst := ih _
      _ = (s.lists q.name ++ [k]) ++ tl.map Prod.fst := by rw [enqueue_lists]; simp
      _ = s.lists q.name ++ ((k, d) :: tl).map Prod.fst := by simp

theorem enqueueAll_hashes_notin (q : Queue) :
    ∀ (jobs : List (String × List (String × String))) (s : Store) (n : String),
      n ∉ jobs.map Prod.fst → (q.enqueueAll s jobs).hashes n = s.hashes n := by
  intro jobs
  induction jobs with
  | nil =>
    intro s n _
    rfl
  | cons j tl ih =>
    intro s n hn
    obtain ⟨k, d⟩ := j
    rw [List.map_cons, List.mem_cons] at hn
    push_neg at hn
    calc (q.enqueueAll s ((k, d) :: tl)).hashes n
        = (q.enqueueAll (q.enqueue s k d) tl).hashes n := rfl
      _ = (q.enqueue s k d).hashes n := ih _ n hn.2
      _ = s.hashes n := enqueue_hashes_ne q s k n d hn.1

theorem enqueueAll_hashes_mem (q : Queue) :
    ∀ (jobs : List (String × List (String × String))) (s : Store),
      (jobs.map Prod.fst).Nodup →
      (∀ j ∈ jobs, s.hashes j.1 = [] ∧ (j.2.map Prod.fst).Nodup) →
      ∀ j ∈ jobs, (q.enqueueAll s jobs).hashes j.1 = j.2 := by
  intro jobs
  induction jobs with
  | nil =>
    intro s _ _ j hj
    exact absurd hj (List.not_mem_nil j)
  | cons hd tl ih =>
    intro s hnd hh j hj
    obtain ⟨k, d⟩ := hd
    rw [List.map_cons, List.nodup_cons] at hnd
    have hsk : (q.enqueue s k d).hashes k = d := by
      have h0 := hh (k, d) (List.mem_cons_self _ _)
      rw [enqueue_hashes_self, h0.1, setAll_nil_of_nodup d h0.2]
    rcases List.mem_cons.mp hj with h | h
    · subst h
      calc (q.enqueueAll s ((k, d) :: tl)).hashes k
          = (q.enqueueAll (q.enqueue s k d) tl).hashes k := rfl
        _ = (q.enqueue s k d).hashes k := enqueueAll_hashes_notin q tl _ k hnd.1
        _ = d := hsk
    · have harg : ∀ j2 ∈ tl, (q.enqueue s k d).hashes j2.1 = [] ∧
          (j2.2.map Prod.fst).Nodup := by
        intro j2 hj2
        have hj2k : j2.1 ≠ k := by
          intro he
          have hm : j2.1 ∈ tl.map Prod.fst := List.mem_map_of_mem Prod.fst hj2
          exact hnd.1 (he ▸ hm)
        have h0 := hh j2 (List.mem_cons_of_mem _ hj2)
        exact ⟨by rw [enqueue_hashes_ne q s k j2.1 d hj2k]; exact h0.1, h0.2⟩
      exact ih (q.enqueue s k d) hnd.2 harg j h

theorem getQueue_isSome_step (st : QueueManager × Store) (op : Op) (name : String)
    (h : (st.1.getQueue name).isSome) : ((step st op).1.getQueue name).isSome := by
  obtain ⟨m, s⟩ := st
  cases op with
  | create n =>
    rw [QueueManager.getQueue] at h
    simp only [step, QueueManager.createQueue, Queue.init, QueueManager.getQueue]
    exact lookupS_isSome_assocSet m.queues n name _ h
  | enq n k d =>
    simp only [step]
    split <;> exact h
  | deq n =>
    simp only [step]
    split <;> exact h

theorem getQueue_isSome_run (name : String) :
    ∀ (ops : List Op) (st : QueueManager × Store),
      (st.1.getQueue name).isSome → ((run st ops).1.getQueue name).isSome := by
  intro ops
  induction ops with
  | nil =>
    intro st h
    exact h
  | cons op tl ih =>
    intro st h
    exact ih (step st op) (getQueue_isSome_step st op name h)

theorem enqueue_ne_notfound (m : QueueManager) (s : Store) (name key : String)
    (data : List (String × String)) (h : (m.getQueue name).isSome) :
    m.enqueue s name key data ≠ Except.error SiphonError.queueNotFound := by
  cases hq : m.getQueue name with
  | none => rw [hq] at h; exact absurd h (by simp)
  | some q => simp [QueueManager.enqueue, hq]

theorem dequeue_ne_notfound (m : QueueManager) (s : Store) (name : String)
    (h : (m.getQueue name).isSome) :
    m.dequeue s name ≠ Except.error SiphonError.queueNotFound := by
  cases hq : m.getQueue name with
  | none => rw [hq] at h; exact absurd h (by simp)
  | some q => simp [QueueManager.dequeue, hq]

/-! ## Claim theorems -/

/-- C1: FIFO ordering.  For every sequence of enqueues with distinct keys
`k1 … kn` on the same queue, starting from an empty queue list (and fresh
field maps for those keys), performing `n` dequeues yields the jobs for
`k1 … kn` — each job's own field map — in exactly that order: enqueue
appends to the tail of the ordered list and dequeue removes from the head. -/
theorem claim_C1 (q : Queue) (s : Store)
    (jobs : List (String × List (String × String)))
    (hkeys : (jobs.map Prod.fst).Nodup)
    (hempty : s.lists q.name = [])
    (hfields : ∀ j ∈ jobs, s.hashes j.1 = [] ∧ (j.2.map Prod.fst).Nodup) :
    (q.dequeueN (q.enqueueAll s jobs) jobs.length).1 = jobs.map Prod.snd := by
  apply dequeueN_spec
  · rw [enqueueAll_lists, hempty, List.nil_append]
  · exact enqueueAll_hashes_mem q jobs s hkeys hfields

/-- C1 witness: two jobs `k1 ↦ {type: email}` and `k2 ↦ {type: sms}`
enqueued on the queue `"foo"` of a fresh store come back in order. -/
theorem claim_C1_w :
    (([("k1", [("type", "email")]), ("k2", [("type", "sms")])].map
        (Prod.fst (α := String) (β := List (String × String)))).Nodup
    ∧ emptyStore.lists qFoo.name = []
    ∧ (qFoo.dequeueN
        (qFoo.enqueueAll emptyStore
          [("k1", [("type", "email")]), ("k2", [("type", "sms")])])
        ([("k1", [("type", "email")]), ("k2", [("type", "sms")])].length)).1 =
      [("k1", [("type", "email")]), ("k2", [("type", "sms")])].map Prod.snd) :=
  ⟨by decide, rfl,
    claim_C1 qFoo emptyStore
      [("k1", [("type", "email")]), ("k2", [("type", "sms")])]
      (by decide) rfl (by decide)⟩

/-- C2: empty-queue idempotence.  Dequeue on an existing queue whose list
is empty returns the `Empty` sentinel (the empty mapping) wrapped in a
normal result — never `QueueNotFound`, never an error — leaves the store
unchanged, and therefore keeps returning `Empty` on every repetition. -/
theorem claim_C2 (m : QueueManager) (q : Queue) (s : Store) (name : String)
    (hq : m.getQueue name = some q)
    (hempty : s.lists q.name = []) :
    m.dequeue s name = Except.ok ([], s)
    ∧ ∀ n2 : Nat, q.dequeueN s n2 = (List.replicate n2 [], s) := by
  have hd : q.dequeue s = ([], s) := dequeue_of_nil q s hempty
  constructor
  · simp [QueueManager.dequeue, hq, hd]
  · intro n2
    induction n2 with
    | zero => rfl
    | succ n2 ih => simp [Queue.dequeueN, hd, ih, List.replicate_succ]

/-- C2 witness: the queue `"foo"` of a fresh store dequeues to `Empty`
through the manager, and three repeated dequeues all return `Empty`. -/
theorem claim_C2_w :
    mFoo.getQueue "foo" = some qFoo
    ∧ emptyStore.lists qFoo.name = []
    ∧ (mFoo.dequeue emptyStore "foo" = Except.ok ([], emptyStore)
      ∧ ∀ n2 : Nat, qFoo.dequeueN emptyStore n2 = (List.replicate n2 [], emptyStore)) :=
  ⟨rfl, rfl, claim_C2 mFoo qFoo emptyStore "foo" rfl rfl⟩

/-- C3: round-trip of job metadata.  Enqueueing `key ↦ fields` (non-empty
fields with distinct names) on a queue whose list is empty and whose store
holds no fields for `key`, then dequeuing once, returns a mapping equal to
`fields` with no extraneous entries; the manager wraps exactly that result. -/
theorem claim_C3 (m : QueueManager) (q : Queue) (s : Store) (name key : String)
    (data : List (String × String))
    (hq : m.getQueue name = some q)
    (hne : data ≠ [])
    (hnd : (data.map Prod.fst).Nodup)
    (hempty : s.lists q.name = [])
    (hkey : s.hashes key = []) :
    (q.dequeue (q.enqueue s key data)).1 = data
    ∧ m.dequeue (q.enqueue s key data) name =
        Except.ok (q.dequeue (q.enqueue s key data)) := by
  have hl : (q.enqueue s key data).lists q.name = key :: [] := by
    rw [enqueue_lists, if_pos rfl, hempty, List.nil_append]
  have hh : (q.enqueue s key data).hashes key = data := by
    rw [enqueue_hashes_self, hkey, setAll_nil_of_nodup data hnd]
  constructor
  · rw [dequeue_of_cons q _ key [] hl, hh]
  · simp [QueueManager.dequeue, hq]

/-- C3 witness: `enqueue("k9", {a: 1, b: 2})` then one dequeue on the fresh
queue `"foo"` returns exactly `{a: 1, b: 2}`. -/
theorem claim_C3_w :
    mFoo.getQueue "foo" = some qFoo
    ∧ ([("a", "1"), ("b", "2")] : List (String × String)) ≠ []
    ∧ (([("a", "1"), ("b", "2")].map
        (Prod.fst (α := String) (β := String))).Nodup)
    ∧ (qFoo.dequeue (qFoo.enqueue emptyStore "k9" [("a", "1"), ("b", "2")])).1 =
        [("a", "1"), ("b", "2")] :=
  ⟨rfl, by decide, by decide,
    (claim_C3 mFoo qFoo emptyStore "foo" "k9" [("a", "1"), ("b", "2")]
      rfl (by decide) (by decide) rfl rfl).1⟩

/-- C4: unknown queue.  For a name never passed to `create_queue`, both
registry operations fail with `QueueNotFound` — not the `Empty` sentinel
and not a store error.  The failure is raised at the registry boundary:
`SiphonError` is produced only by `QueueManager`, while every `Queue`
operation returns plain stores and values and cannot signal "not found". -/
theorem claim_C4 (m : QueueManager) (s : Store) (name key : String)
    (data : List (String × String))
    (habs : m.getQueue name = none) :
    m.enqueue s name key data = Except.error SiphonError.queueNotFound
    ∧ m.dequeue s name = Except.error SiphonError.queueNotFound := by
  constructor
  · simp [QueueManager.enqueue, habs]
  · simp [QueueManager.dequeue, habs]

/-- C4 witness: on a registry with no queues, enqueue and dequeue of
`"bar"` both fail with `QueueNotFound`. -/
theorem claim_C4_w :
    mEmpty.getQueue "bar" = none
    ∧ mEmpty.enqueue emptyStore "bar" "k" [] =
        Except.error SiphonError.queueNotFound
    ∧ mEmpty.dequeue emptyStore "bar" = Except.error SiphonError.queueNotFound :=
  ⟨rfl, (claim_C4 mEmpty emptyStore "bar" "k" [] rfl).1,
    (claim_C4 mEmpty emptyStore "bar" "k" [] rfl).2⟩

/-- C5: creation replacement.  `create_queue` never touches the store, the
registry entry it (re)writes is the queue object determined by the name
alone (`"queue:" ++ name` plus the shared connection), so calling
`create_queue(name)` a second time resolves to an identical queue object
and dequeue behaves identically after one or two creations: jobs already
in the store-level list are neither duplicated nor lost. -/
theorem claim_C5 (m : QueueManager) (s : Store) (name : String) :
    (step (m, s) (Op.create name)).2 = s
    ∧ (m.createQueue name).getQueue name =
        some ⟨m.connection, "queue" ++ ":" ++ name⟩
    ∧ ((m.createQueue name).createQueue name).getQueue name =
        some ⟨m.connection, "queue" ++ ":" ++ name⟩
    ∧ ((m.createQueue name).createQueue name).dequeue s name =
        (m.createQueue name).dequeue s name := by
  have h1 : ∀ m2 : QueueManager, (m2.createQueue name).getQueue name =
      some ⟨m2.connection, "queue" ++ ":" ++ name⟩ := by
    intro m2
    simp [QueueManager.createQueue, Queue.init, QueueManager.getQueue,
      lookupS_assocSet_self]
  have hconn : (m.createQueue name).connection = m.connection := by
    simp [QueueManager.createQueue, Queue.init]
  refine ⟨rfl, h1 m, ?_, ?_⟩
  · rw [h1 (m.createQueue name), hconn]
  · rw [QueueManager.dequeue, QueueManager.dequeue, h1 (m.createQueue name), hconn, h1 m]

/-- C6: enqueue effect order and shape.  `enqueue` is exactly the list
push followed by the field writes; it appends `key` to the tail of this
queue's ordered list; each single field write overwrites an existing field
of the same name and leaves other fields' lookups unchanged; an empty
fields map causes no field writes at all; and no hash other than the job
key's is touched. -/
theorem claim_C6 (q : Queue) (s : Store) (key : String)
    (data : List (String × String)) :
    q.enqueue s key data = q.setHashData (q.pushToQueue s key) key data
    ∧ (q.enqueue s key data).lists q.name = s.lists q.name ++ [key]
    ∧ (∀ f v, lookupS ((s.hset key f v).hashes key) f = some v)
    ∧ (∀ f v g, g ≠ f →
        lookupS ((s.hset key f v).hashes key) g = lookupS (s.hashes key) g)
    ∧ q.enqueue s key [] = q.pushToQueue s key
    ∧ (∀ n, n ≠ key → (q.enqueue s key data).hashes n = s.hashes n) := by
  refine ⟨rfl, ?_, ?_, ?_, rfl, ?_⟩
  · rw [enqueue_lists, if_pos rfl]
  · intro f v
    simp [Store.hset, lookupS_assocSet_self]
  · intro f v g hg
    simp [Store.hset, lookupS_assocSet_ne _ f g v hg]
  · intro n hn
    exact enqueue_hashes_ne q s key n data hn

/-- C6 witness: instantiated on the queue `"foo"`, a fresh store, key
`"k"` and the single field `{a: 1}`. -/
theorem claim_C6_w :
    qFoo.enqueue emptyStore "k" [("a", "1")] =
      qFoo.setHashData (qFoo.pushToQueue emptyStore "k") "k" [("a", "1")]
    ∧ (qFoo.enqueue emptyStore "k" [("a", "1")]).lists qFoo.name =
        emptyStore.lists qFoo.name ++ ["k"]
    ∧ (∀ f v, lookupS ((emptyStore.hset "k" f v).hashes "k") f = some v)
    ∧ (∀ f v g, g ≠ f →
        lookupS ((emptyStore.hset "k" f v).hashes "k") g =
          lookupS (emptyStore.hashes "k") g)
    ∧ qFoo.enqueue emptyStore "k" [] = qFoo.pushToQueue emptyStore "k"
    ∧ (∀ n, n ≠ "k" →
        (qFoo.enqueue emptyStore "k" [("a", "1")]).hashes n =
          emptyStore.hashes n) :=
  claim_C6 qFoo emptyStore "k" [("a", "1")]

/-- C7 counterexample: on an existing queue whose list is empty,
`_peek_last_element` returns the raw empty list (the `return item`
fallthrough), which is not `None` — refuting the claim that it returns
`None` when the list is empty. -/
theorem claim_C7_cex :
    qFoo.peekLastElement emptyStore = PyVal.list []
    ∧ qFoo.peekLastElement emptyStore ≠ PyVal.none := by
  constructor
  · rfl
  · decide

/-- C7 (amended): `peekTail` returns the most recently pushed key when the
queue's list is non-empty, and the empty list — a falsy value distinct
from `None` — when the list is empty.  It is a pure read (`lrange`), so
the ordered list is identical before and after the call. -/
theorem claim_C7 (q : Queue) (s : Store) :
    (∀ (l : List String) (x : String), s.lists q.name = l ++ [x] →
      q.peekLastElement s = PyVal.str x)
    ∧ (s.lists q.name = [] → q.peekLastElement s = PyVal.list []) := by
  constructor
  · intro l x h
    rw [Queue.peekLastElement, Store.lrangeLast, h, List.getLast?_append_cons]
    rfl
  · intro h
    rw [Queue.peekLastElement, Store.lrangeLast, h]
    rfl

/-- C7 witness: with keys `a` then `b` pushed on queue `"foo"`, peek
returns `b`, the most recently pushed key. -/
theorem claim_C7_w :
    storeAB.lists qFoo.name = ["a"] ++ ["b"]
    ∧ qFoo.peekLastElement storeAB = PyVal.str "b" :=
  ⟨by decide, (claim_C7 qFoo storeAB).1 ["a"] "b" (by decide)⟩

/-- C8: once a name has been created it stays present.  No registry
operation removes a mapping entry, so after `create_queue(name)` and any
further sequence of operations the name still resolves to a queue, and
enqueue/dequeue on it never fail with `QueueNotFound`. -/
theorem claim_C8 (m : QueueManager) (s : Store) (name key : String)
    (data : List (String × String)) (ops : List Op) :
    ((run (step (m, s) (Op.create name)) ops).1.getQueue name).isSome
    ∧ (run (step (m, s) (Op.create name)) ops).1.enqueue
        (run (step (m, s) (Op.create name)) ops).2 name key data ≠
          Except.error SiphonError.queueNotFound
    ∧ (run (step (m, s) (Op.create name)) ops).1.dequeue
        (run (step (m, s) (Op.create name)) ops).2 name ≠
          Except.error SiphonError.queueNotFound := by
  have h0 : ((step (m, s) (Op.create name)).1.getQueue name).isSome := by
    simp [step, QueueManager.createQueue, Queue.init, QueueManager.getQueue,
      lookupS_assocSet_self]
  have h1 := getQueue_isSome_run name ops (step (m, s) (Op.create name)) h0
  exact ⟨h1, enqueue_ne_notfound _ _ name key data h1,
    dequeue_ne_notfound _ _ name h1⟩

/-- C9: constructing a `Queue` without a backing-store connection fails.
`Queue.__init__` raises `Exception('No connection given. Exiting')` when
`connection is None`; it never yields a queue object with a null database
handle. -/
theorem claim_C9 (name : String) :
    Queue.init name Option.none = Except.error "No connection given. Exiting"
    ∧ ∀ qres : Queue, Queue.init name Option.none ≠ Except.ok qres := by
  refine ⟨rfl, ?_⟩
  intro qres h
  exact Except.noConfusion h

/-- C10: zero-field enqueue and the `None` read-back.  Enqueueing with an
empty fields map is exactly the list push (no field writes); reading the
field map of a key with no fields returns `None` rather than an empty
mapping; and after a zero-field enqueue the read-back for that key is
still `None`, indistinguishable from a key whose fields were never
written (the latent `PartialJobWrite` state). -/
theorem claim_C10 (q : Queue) (s : Store) (key : String)
    (hkey : s.hashes key = []) :
    q.enqueue s key [] = q.pushToQueue s key
    ∧ q.getHashData s key = Option.none
    ∧ q.getHashData (q.enqueue s key []) key = Option.none
    ∧ q.getHashData (q.enqueue s key []) key = q.getHashData s key := by
  have h2 : q.getHashData s key = Option.none := by
    simp [Queue.getHashData, Store.hgetall, hkey]
  have h3 : q.getHashData (q.enqueue s key []) key = Option.none := by
    show q.getHashData (q.pushToQueue s key) key = Option.none
    simp [Queue.getHashData, Store.hgetall, pushToQueue_hashes, hkey]
  exact ⟨rfl, h2, h3, by rw [h2, h3]⟩

/-- C10 witness: on a fresh store, enqueueing `"k7"` with no fields leaves
the hash read-back `None`, exactly as before the enqueue. -/
theorem claim_C10_w :
    emptyStore.hashes "k7" = []
    ∧ qFoo.enqueue emptyStore "k7" [] = qFoo.pushToQueue emptyStore "k7"
    ∧ qFoo.getHashData emptyStore "k7" = Option.none
    ∧ qFoo.getHashData (qFoo.enqueue emptyStore "k7" []) "k7" = Option.none :=
  ⟨rfl, (claim_C10 qFoo emptyStore "k7" rfl).1,
    (claim_C10 qFoo emptyStore "k7" rfl).2.1,
    (claim_C10 qFoo emptyStore "k7" rfl).2.2.1⟩

end Siphon
